import Mathlib

/-!
# Verification of the `errors` package (go-errors)

A shallow embedding of the repository's error-representation layer:

* `Frame` / `StackTrace` with `Frame.Package` and `Frame.FuncName`
  (frame.go), embedded over `List Char` string primitives that mirror
  Go's `strings.HasPrefix`, `strings.Index` and `strings.LastIndex`.
* The Error Core `baseError` (errors.go, the metadata-carrying variant),
  embedded with an explicit heap: Go's `*baseError` pointers become
  indices into a list of `BaseError` cells, and Go's `Metadata` maps
  (reference values) become indices into a list of association maps.
  Stack capture (`getStack`) depends on the runtime call stack, so every
  operation that captures a stack takes the captured `StackTrace` as an
  explicit parameter.
* The panic adapter `RecoverPanic` (recover.go).

Foreign errors (errors from outside the package) are modelled as opaque
leaves: they carry no `Unwrap` hook, so chain traversal (`errors.As` /
`errors.Is`) stops at them, which matches a plain foreign error value.
-/

set_option autoImplicit false

namespace GoErrors

/-! ## String primitives (Go `strings` package, specialised to one char) -/

/-- Go `strings.HasPrefix(s, prefix)` on character lists. -/
def hasPrefixL : List Char → List Char → Bool
  | [], _ => true
  | _ :: _, [] => false
  | p :: ps, c :: cs => p = c && hasPrefixL ps cs

/-- Go `strings.Index(s, sep)` for a one-character separator:
index of the first occurrence, `none` when absent (Go returns -1). -/
def firstIdx (c : Char) : List Char → Option Nat
  | [] => none
  | x :: t => if x = c then some 0 else (firstIdx c t).map (· + 1)

/-- Go `strings.LastIndex(s, sep)` for a one-character separator:
index of the last occurrence, `none` when absent (Go returns -1). -/
def lastIdx (c : Char) : List Char → Option Nat
  | [] => none
  | x :: t =>
    match lastIdx c t with
    | some i => some (i + 1)
    | none => if x = c then some 0 else none

/-! ## Frame (frame.go)

The source `Frame` wraps a `runtime.Frame`; `Package` and `FuncName`
read only its fully-qualified `Function` symbol, so the embedding keeps
just that field. -/

structure Frame where
  Function : String
deriving DecidableEq, Repr, Inhabited

abbrev StackTrace := List Frame

/-- frame.go `Frame.Package`: empty for compiler-generated symbols
(prefixes `go.` and `type.`); otherwise the text of the symbol after its
last `/` and before the first `.` that follows, empty if no such dot. -/
def Frame.Package (f : Frame) : String :=
  let cs := f.Function.data
  if hasPrefixL "go.".data cs || hasPrefixL "type.".data cs then ""
  else
    -- pathend := strings.LastIndex(f.Function, "/"); tail := f.Function[pathend+1:]
    let tail := match lastIdx '/' cs with
      | some p => cs.drop (p + 1)
      | none => cs
    match firstIdx '.' tail with
    | some i => ⟨tail.take i⟩
    | none => ""

/-- frame.go `Frame.FuncName`: the text after the last `.` of the
symbol, or the whole symbol if it has no dot. -/
def Frame.FuncName (f : Frame) : String :=
  let cs := f.Function.data
  match lastIdx '.' cs with
  | some i => ⟨cs.drop (i + 1)⟩
  | none => f.Function

/-! ## Metadata (Go `map[string]interface{}`)

The value universe is restricted to a closed sum: strings, integers and
one level of nested string map — enough to express the shallow-merge
behaviour the spec describes (nested sub-maps replaced wholesale). -/

inductive MetaVal where
  | str (s : String)
  | int (n : Int)
  | map (m : List (String × String))
deriving DecidableEq, Repr, Inhabited

/-- A Go map value: an association list with unique keys maintained by
`setKey`. Lookup returns the first (hence only) binding. -/
abbrev Metadata := List (String × MetaVal)

/-- Go map read `m[k]`. -/
def Metadata.lookupKey : Metadata → String → Option MetaVal
  | [], _ => none
  | (k0, v0) :: t, k => if k0 = k then some v0 else Metadata.lookupKey t k

/-- Go map assignment `m[k] = v`: replace the binding of `k` if present,
else append it. -/
def Metadata.setKey : Metadata → String → MetaVal → Metadata
  | [], k, v => [(k, v)]
  | (k0, v0) :: t, k, v => if k0 = k then (k, v) :: t else (k0, v0) :: Metadata.setKey t k v

/-- `for k, v := range meta { base[k] = v }` — the loop body of
`baseError.WithMetadata`. -/
def Metadata.mergeInto (base meta : Metadata) : Metadata :=
  meta.foldl (fun acc kv => acc.setKey kv.1 kv.2) base

/-! ## Error values and the heap

Go's `*baseError` is a pointer to a mutable struct and Go's `Metadata`
map is a reference value, so the embedding threads an explicit heap:
`GoError.base id` points at `Heap.errs[id]`, and a cell's `metadata`
field holds `some mid` pointing at `Heap.maps[mid]` (`none` is Go's nil
map). All package operations allocate at the end of the respective
list, so ids are stable. -/

inductive GoError where
  /-- A `*baseError` pointer: index into `Heap.errs`. -/
  | base (id : Nat)
  /-- A foreign (non-package) error; its string is its `Error()` text. -/
  | foreign (name : String)
deriving DecidableEq, Repr, Inhabited

structure BaseError where
  cause : Option GoError
  msg : String
  typeStr : String
  stacktrace : StackTrace
  metadata : Option Nat
deriving DecidableEq, Repr

instance : Inhabited BaseError := ⟨⟨none, "", "", [], none⟩⟩

structure Heap where
  errs : List BaseError
  maps : List Metadata
deriving DecidableEq, Repr

def Heap.empty : Heap := ⟨[], []⟩

/-- Read the cell a `*baseError` points at (junk default for a dangling
pointer; the theorems carry validity hypotheses where it matters). -/
def Heap.cell (h : Heap) (id : Nat) : BaseError := h.errs.getD id default

/-- Read a metadata map by reference. -/
def Heap.mapAt (h : Heap) (mid : Nat) : Metadata := h.maps.getD mid []

/-- Allocate a fresh metadata map (a Go map literal such as `Metadata{}`
or one written by the caller). Returns the new heap and the reference. -/
def Heap.allocMap (h : Heap) (m : Metadata) : Heap × Nat :=
  ({ h with maps := h.maps ++ [m] }, h.maps.length)

/-- Allocate a fresh `baseError` cell (`&baseError{...}`). -/
def Heap.allocErr (h : Heap) (c : BaseError) : Heap × GoError :=
  ({ h with errs := h.errs ++ [c] }, .base h.errs.length)

/-- `errors.As(err, &baseErr)`: find the first `*baseError` in `err`'s
unwrap chain. In this model a foreign error is a leaf (no `Unwrap`
hook), so the chain search succeeds exactly when `err` itself is a
`*baseError`. -/
def findBase : GoError → Option Nat
  | .base id => some id
  | .foreign _ => none

/-! ## Error Core operations (errors.go, metadata-carrying variant)

`getStack(0)` captures the runtime call stack, which has no counterpart
inside the program text; each capturing operation therefore takes the
freshly captured `StackTrace` as the explicit parameter `st`. The
`fmt.Sprintf(msg, args...)` step is embedded by passing the already
formatted message. -/

/-- `New(msg)`: no cause, no type tag, fresh empty metadata map, fresh
stack trace. -/
def New (h : Heap) (msg : String) (st : StackTrace) : Heap × GoError :=
  let (h1, mid) := h.allocMap []
  h1.allocErr ⟨none, msg, "", st, some mid⟩

/-- `W(err)`: bare wrap. If the chain holds a `*baseError`, propagate
its `typeStr` and its metadata map (by reference); else fresh empty
metadata. -/
def W (h : Heap) (err : GoError) (st : StackTrace) : Heap × GoError :=
  match findBase err with
  | some bid =>
    let c := h.cell bid
    h.allocErr ⟨some err, "", c.typeStr, st, c.metadata⟩
  | none =>
    let (h1, mid) := h.allocMap []
    h1.allocErr ⟨some err, "", "", st, some mid⟩

/-- `Wrap(err, msg)`: wrap with a message; propagates `typeStr` and the
metadata map reference from the first `*baseError` in the chain. -/
def Wrap (h : Heap) (err : GoError) (msg : String) (st : StackTrace) : Heap × GoError :=
  match findBase err with
  | some bid =>
    let c := h.cell bid
    h.allocErr ⟨some err, msg, c.typeStr, st, c.metadata⟩
  | none =>
    let (h1, mid) := h.allocMap []
    h1.allocErr ⟨some err, msg, "", st, some mid⟩

/-- `NewWithType(msg, typeStr)`. -/
def NewWithType (h : Heap) (msg typeStr : String) (st : StackTrace) : Heap × GoError :=
  let (h1, mid) := h.allocMap []
  h1.allocErr ⟨none, msg, typeStr, st, some mid⟩

/-- `GetMetadata(err)`: a pointer to the metadata *field* of the first
`*baseError` in the chain (`none` when there is none). The outer layer
is the pointer; the inner `Option Nat` is the field's map reference,
which Go lets be the nil map. -/
def GetMetadata (h : Heap) (err : GoError) : Option (Option Nat) :=
  (findBase err).map fun bid => (h.cell bid).metadata

/-- `WrapWithType(err, msg, typeStr)`: always sets the given type tag.
`meta := Metadata{}; if metaPtr != nil { meta = *metaPtr }` — note that
`*metaPtr` is a Go map value, i.e. a reference: the new cell holds the
*same* map reference as the wrapped error's field, not a copy. -/
def WrapWithType (h : Heap) (err : GoError) (msg typeStr : String) (st : StackTrace) :
    Heap × GoError :=
  match GetMetadata h err with
  | some fieldVal =>
    h.allocErr ⟨some err, msg, typeStr, st, fieldVal⟩
  | none =>
    let (h1, mid) := h.allocMap []
    h1.allocErr ⟨some err, msg, typeStr, st, some mid⟩

/-- `NewSentinel(typeStr, msg)`: no stack trace (Go nil slice, modelled
as `[]`), fresh empty metadata map. -/
def NewSentinel (h : Heap) (typeStr msg : String) : Heap × GoError :=
  let (h1, mid) := h.allocMap []
  h1.allocErr ⟨none, msg, typeStr, [], some mid⟩

/-- `SentinelWithStack(err)`: when the chain holds a `*baseError`, that
cell's `stacktrace` field is assigned nil in place (a heap write), and a
new cell wraps the found `*baseError` (as `cause`) with its message,
type tag and metadata reference plus the freshly captured stack. -/
def SentinelWithStack (h : Heap) (err : GoError) (st : StackTrace) : Heap × GoError :=
  match findBase err with
  | some bid =>
    let c := h.cell bid
    let h1 : Heap := { h with errs := h.errs.set bid { c with stacktrace := [] } }
    h1.allocErr ⟨some (.base bid), c.msg, c.typeStr, st, c.metadata⟩
  | none =>
    let (h1, mid) := h.allocMap []
    h1.allocErr ⟨some err, "", "", st, some mid⟩

/-- `baseError.WithMetadata(meta)`: install the argument map reference
when the field is nil, else merge the argument map into the field's map
in place, key-by-key overwrite. Returns the receiver itself. -/
def WithMetadata (h : Heap) (eid : Nat) (mid : Nat) : Heap × Nat :=
  let c := h.cell eid
  match c.metadata with
  | none =>
    ({ h with errs := h.errs.set eid { c with metadata := some mid } }, eid)
  | some emid =>
    ({ h with maps := h.maps.set emid ((h.mapAt emid).mergeInto (h.mapAt mid)) }, eid)

/-- `baseError.Unwrap()`: the `cause` field (`none` is Go nil). A
foreign error has no `Unwrap` in this model. -/
def Unwrap (h : Heap) : GoError → Option GoError
  | .base id => (h.cell id).cause
  | .foreign _ => none

/-- `baseError.Type()`: the explicit tag when set, else the reflective
name of the concrete value, which for `*baseError` is the constant
string `*errors.baseError`. -/
def BaseError.Type (c : BaseError) : String :=
  if c.typeStr ≠ "" then c.typeStr else "*errors.baseError"

/-- `Type()` read through a `*baseError` pointer. -/
def TypeOf (h : Heap) (id : Nat) : String := (h.cell id).Type

/-- `errors.Is(err, target)`: walk the unwrap chain comparing values
(`*baseError` pointers compare by identity). `fuel` bounds the walk; any
fuel at least the chain length gives the true answer. -/
def Is (h : Heap) (fuel : Nat) (err target : GoError) : Bool :=
  match fuel with
  | 0 => false
  | fuel + 1 =>
    err = target ||
      match Unwrap h err with
      | some c => Is h fuel c target
      | none => false

/-- The metadata map contents seen through `GetMetadata` (dereferencing
the returned pointer; `none` when no `*baseError` is in the chain or the
field holds the nil map). -/
def GetMetadataMap (h : Heap) (err : GoError) : Option Metadata :=
  match GetMetadata h err with
  | some (some mid) => some (h.mapAt mid)
  | _ => none

/-- `baseError.Error()` (the metadata-carrying variant): the context is
the type tag alone, `pkg.fn` from the first stack frame alone, or
`tag@pkg.fn` when both exist; the context is put in square brackets with
the message appended after them when the message is non-empty; a cause's
own display follows after ` => `. `fuel` bounds the recursion through
the heap along the cause chain (any fuel exceeding the chain length
gives the true answer; the package API builds only finite chains). -/
def errorStr (h : Heap) : Nat → GoError → String
  | 0, _ => ""
  | _ + 1, .foreign name => name
  | fuel + 1, .base id =>
    let c := h.cell id
    let contextMsg := if c.typeStr ≠ "" then c.typeStr else ""
    let contextMsg :=
      match c.stacktrace with
      | [] => contextMsg
      | topStack :: _ =>
        if contextMsg ≠ "" then
          c.typeStr ++ "@" ++ topStack.Package ++ "." ++ topStack.FuncName
        else
          topStack.Package ++ "." ++ topStack.FuncName
    let msg := contextMsg
    let msg := if c.msg ≠ "" then "[" ++ msg ++ "] " ++ c.msg else msg
    match c.cause with
    | some cause => msg ++ " => " ++ errorStr h fuel cause
    | none => msg

/-! ## Panic adapter (recover.go) -/

/-- The value handed to `recover()`: Go nil, an error value, or a
non-error value whose `fmt` `%v` rendering is `rendered`. -/
inductive Recovered where
  | nil
  | err (e : GoError)
  | value (rendered : String)
deriving DecidableEq, Repr

/-- Set the `stacktrace` field of the cell at `id` (the
`baseErr.stacktrace = baseErr.stacktrace[2:]` writes). -/
def Heap.setStack (h : Heap) (id : Nat) (st : StackTrace) : Heap :=
  { h with errs := h.errs.set id { h.cell id with stacktrace := st } }

/-- `RecoverPanic(r, errPtr)`: normalizes a recovered value into the
output slot. `slot` is the contents of `*errPtr` on entry (Go nil is
`none`); the returned slot is its contents on exit. A recovered
`*baseError` passes through unchanged; another error is wrapped with
message `caught panic`; a non-error value becomes a fresh error with
message `caught panic: <v>`; the two wrapping branches drop the first
two (innermost) captured frames (Go's `[2:]` requires at least two
captured frames; `List.drop` is total, and a deferred recovery always
captures more). When `r` is nil no write happens. -/
def RecoverPanic (h : Heap) (r : Recovered) (slot : Option GoError) (st : StackTrace) :
    Heap × Option GoError :=
  match r with
  | .nil => (h, slot)
  | .err e =>
    match e with
    | .base id => (h, some (.base id))
    | .foreign name =>
      let (h1, w) := Wrap h (.foreign name) "caught panic" st
      match w with
      | .base wid => (h1.setStack wid ((h1.cell wid).stacktrace.drop 2), some w)
      | .foreign _ => (h1, some w)
  | .value v =>
    let (h1, w) := New h ("caught panic: " ++ v) st
    match w with
    | .base wid => (h1.setStack wid ((h1.cell wid).stacktrace.drop 2), some w)
    | .foreign _ => (h1, some w)

/-! ## List helper lemmas for heap reasoning -/

section ListLemmas

variable {α : Type _}

lemma getD_append_length (l : List α) (x d : α) : (l ++ [x]).getD l.length d = x := by
  induction l with
  | nil => rfl
  | cons a t ih => simp [List.getD]

lemma getD_append_lt (l : List α) (x d : α) (i : Nat) (h : i < l.length) :
    (l ++ [x]).getD i d = l.getD i d := by
  induction l generalizing i with
  | nil => exact absurd h (by simp)
  | cons a t ih =>
    cases i with
    | zero => rfl
    | succ j =>
      have : j < t.length := by simpa using h
      simpa [List.getD] using ih j this

lemma getD_set_self (l : List α) (i : Nat) (x d : α) (h : i < l.length) :
    (l.set i x).getD i d = x := by
  induction l generalizing i with
  | nil => exact absurd h (by simp)
  | cons a t ih =>
    cases i with
    | zero => rfl
    | succ j =>
      have : j < t.length := by simpa using h
      simpa [List.getD] using ih j this

lemma getD_set_ne (l : List α) (i j : Nat) (x d : α) (h : i ≠ j) :
    (l.set i x).getD j d = l.getD j d := by
  induction l generalizing i j with
  | nil => rfl
  | cons a t ih =>
    cases i with
    | zero =>
      cases j with
      | zero => exact absurd rfl h
      | succ k => rfl
    | succ i' =>
      cases j with
      | zero => rfl
      | succ k => simpa [List.getD] using ih i' k (fun he => h (by omega))

lemma getD_of_length_le (l : List α) (d : α) (i : Nat) (h : l.length ≤ i) :
    l.getD i d = d := by
  induction l generalizing i with
  | nil => rfl
  | cons a t ih =>
    cases i with
    | zero => exact absurd h (by simp)
    | succ j => exact ih j (by simpa using h)

lemma set_append_lt (l : List α) (x y : α) (i : Nat) (h : i < l.length) :
    (l ++ [x]).set i y = l.set i y ++ [x] := by
  induction l generalizing i with
  | nil => exact absurd h (by simp)
  | cons a t ih =>
    cases i with
    | zero => rfl
    | succ j =>
      have : j < t.length := by simpa using h
      simp [List.set, ih j this]

end ListLemmas

/-! ## Metadata map lemmas -/

lemma lookupKey_setKey (m : Metadata) (k k' : String) (v : MetaVal) :
    (m.setKey k v).lookupKey k' = if k = k' then some v else m.lookupKey k' := by
  induction m with
  | nil => simp [Metadata.setKey, Metadata.lookupKey]
  | cons kv t ih =>
    obtain ⟨k0, v0⟩ := kv
    by_cases h0 : k0 = k
    · subst h0
      by_cases h2 : k0 = k' <;> simp [Metadata.setKey, Metadata.lookupKey, h2]
    · by_cases h1 : k0 = k'
      · subst h1
        have : ¬k = k0 := fun he => h0 he.symm
        simp [Metadata.setKey, Metadata.lookupKey, h0, this]
      · simp [Metadata.setKey, Metadata.lookupKey, h0, h1, ih]

lemma lookupKey_eq_none_of_not_mem (m : Metadata) (k : String)
    (h : k ∉ m.map Prod.fst) : m.lookupKey k = none := by
  induction m with
  | nil => rfl
  | cons kv t ih =>
    obtain ⟨k0, v0⟩ := kv
    simp only [List.map_cons, List.mem_cons] at h
    push_neg at h
    have hne : ¬k0 = k := fun he => h.1 he.symm
    simp [Metadata.lookupKey, hne, ih h.2]

/-- The shallow-merge law for `mergeInto` (the `WithMetadata` loop):
keys bound in the update map take the update's value, all other keys
keep the base map's value. Requires the update map's keys to be unique,
as a Go map's are. -/
lemma lookupKey_mergeInto (base m : Metadata) (hnd : (m.map Prod.fst).Nodup) (k : String) :
    (base.mergeInto m).lookupKey k =
      match m.lookupKey k with
      | some v => some v
      | none => base.lookupKey k := by
  induction m generalizing base with
  | nil => simp [Metadata.mergeInto, Metadata.lookupKey]
  | cons kv t ih =>
    obtain ⟨k0, v0⟩ := kv
    simp only [List.map_cons, List.nodup_cons] at hnd
    have hstep : Metadata.mergeInto base ((k0, v0) :: t) =
        Metadata.mergeInto (base.setKey k0 v0) t := rfl
    rw [hstep, ih _ hnd.2]
    by_cases hk : k0 = k
    · subst hk
      have hnone : Metadata.lookupKey t k0 = none := lookupKey_eq_none_of_not_mem t k0 hnd.1
      simp [Metadata.lookupKey, hnone, lookupKey_setKey]
    · simp [Metadata.lookupKey, hk, lookupKey_setKey]

/-! ## Claim theorems -/

/-- C1: wrapping an error that carries a type tag `T` with `Wrap` (which
supplies no explicit tag) yields an error whose `Type()` is `T`: the tag
propagates through the wrap layer. -/
theorem wrap_preserves_type (h : Heap) (id : Nat) (m T : String) (st : StackTrace)
    (hT : (h.cell id).typeStr = T) (hne : T ≠ "") :
    (Wrap h (.base id) m st).2 = .base h.errs.length ∧
      TypeOf (Wrap h (.base id) m st).1 h.errs.length = T := by
  refine ⟨rfl, ?_⟩
  have hc : Heap.cell (Wrap h (.base id) m st).1 h.errs.length =
      ⟨some (.base id), m, (h.cell id).typeStr, st, (h.cell id).metadata⟩ := by
    simp [Wrap, findBase, Heap.allocErr, Heap.cell, getD_append_length]
  simp [TypeOf, hc, BaseError.Type, hT, hne]

theorem wrap_preserves_type_witness :
    ((NewWithType Heap.empty "m" "T" []).1.cell 0).typeStr = "T" ∧
      ((Wrap (NewWithType Heap.empty "m" "T" []).1 (.base 0) "x" []).2 =
          .base (NewWithType Heap.empty "m" "T" []).1.errs.length ∧
        TypeOf (Wrap (NewWithType Heap.empty "m" "T" []).1 (.base 0) "x" []).1
          (NewWithType Heap.empty "m" "T" []).1.errs.length = "T") :=
  ⟨by decide,
    wrap_preserves_type (NewWithType Heap.empty "m" "T" []).1 0 "x" "T" []
      (by decide) (by decide)⟩

/-- C2: `Unwrap (Wrap err m)` returns exactly `err`: the wrapped error
is installed as the cause and `Unwrap` returns that cause. -/
theorem unwrap_of_wrap (h : Heap) (err : GoError) (m : String) (st : StackTrace) :
    Unwrap (Wrap h err m st).1 (Wrap h err m st).2 = some err := by
  cases err with
  | base id =>
    simp [Wrap, findBase, Heap.allocErr, Unwrap, Heap.cell, getD_append_length]
  | foreign n =>
    simp [Wrap, findBase, Heap.allocMap, Heap.allocErr, Unwrap, Heap.cell, getD_append_length]

/-- C7: `RecoverPanic` leaves the slot untouched for a nil recovery;
passes a recovered `*baseError` through unchanged (heap untouched);
wraps another recovered error with message `caught panic` and the two
innermost frames trimmed; formats a non-error value into a message and
likewise trims; and for every non-nil recovered value the slot is
written with a non-nil error. -/
theorem recoverPanic_spec (h : Heap) (slot : Option GoError) (st : StackTrace)
    (id : Nat) (n v : String) :
    RecoverPanic h .nil slot st = (h, slot) ∧
    RecoverPanic h (.err (.base id)) slot st = (h, some (.base id)) ∧
    ((RecoverPanic h (.err (.foreign n)) slot st).2 = some (.base h.errs.length) ∧
      (RecoverPanic h (.err (.foreign n)) slot st).1.cell h.errs.length =
        ⟨some (.foreign n), "caught panic", "", st.drop 2, some h.maps.length⟩) ∧
    ((RecoverPanic h (.value v) slot st).2 = some (.base h.errs.length) ∧
      (RecoverPanic h (.value v) slot st).1.cell h.errs.length =
        ⟨none, "caught panic: " ++ v, "", st.drop 2, some h.maps.length⟩) ∧
    (∀ r : Recovered, r ≠ .nil → (RecoverPanic h r slot st).2 ≠ none) := by
  refine ⟨rfl, rfl, ⟨rfl, ?_⟩, ⟨rfl, ?_⟩, ?_⟩
  · simp [RecoverPanic, Wrap, findBase, Heap.allocMap, Heap.allocErr, Heap.setStack,
      Heap.cell, getD_append_length, getD_set_self]
  · simp [RecoverPanic, New, Heap.allocMap, Heap.allocErr, Heap.setStack,
      Heap.cell, getD_append_length, getD_set_self]
  · intro r hr
    cases r with
    | nil => exact absurd rfl hr
    | err e =>
      cases e with
      | base i => simp [RecoverPanic]
      | foreign name =>
        simp only [RecoverPanic]
        cases (Wrap h (GoError.foreign name) "caught panic" st).2 <;> simp
    | value s =>
      simp only [RecoverPanic]
      cases (New h ("caught panic: " ++ s) st).2 <;> simp

theorem recoverPanic_spec_witness :
    (Recovered.value "boom" ≠ Recovered.nil ∧
      (RecoverPanic Heap.empty (.value "boom") none []).2 ≠ none) :=
  ⟨by decide,
    (recoverPanic_spec Heap.empty none [] 0 "n" "v").2.2.2.2 (.value "boom") (by decide)⟩

lemma getD_append_of_length_eq {α : Type _} (l : List α) (x d : α) (i : Nat)
    (h : i = l.length) : (l ++ [x]).getD i d = x := by
  subst h
  exact getD_append_length l x d

/-- Unfolding lemma for `SentinelWithStack` over a `*baseError`
argument whose cell is known. -/
lemma sentinelWithStack_unfold (g : Heap) (sid : Nat) (st : StackTrace) (c : BaseError)
    (hg : g.cell sid = c) :
    (SentinelWithStack g (.base sid) st).1 =
      ⟨(g.errs.set sid ⟨c.cause, c.msg, c.typeStr, [], c.metadata⟩) ++
        [⟨some (.base sid), c.msg, c.typeStr, st, c.metadata⟩], g.maps⟩ ∧
    (SentinelWithStack g (.base sid) st).2 = .base g.errs.length := by
  constructor
  · simp only [SentinelWithStack, findBase, Heap.allocErr, hg]
  · simp only [SentinelWithStack, findBase, Heap.allocErr, List.length_set]

/-- One `SentinelWithStack` step, described cell by cell: the new cell,
the in-place stack clearing of the argument cell, all other cells and
the map store untouched, and the returned pointer. -/
lemma sentinelWithStack_cells (g : Heap) (sid : Nat) (st : StackTrace) (c : BaseError)
    (hg : g.cell sid = c) (hsid : sid < g.errs.length) :
    (SentinelWithStack g (.base sid) st).1.cell g.errs.length =
      ⟨some (.base sid), c.msg, c.typeStr, st, c.metadata⟩ ∧
    (SentinelWithStack g (.base sid) st).1.cell sid =
      ⟨c.cause, c.msg, c.typeStr, [], c.metadata⟩ ∧
    (∀ j, j ≠ sid → j ≠ g.errs.length →
      (SentinelWithStack g (.base sid) st).1.cell j = g.cell j) ∧
    (SentinelWithStack g (.base sid) st).1.errs.length = g.errs.length + 1 ∧
    (SentinelWithStack g (.base sid) st).1.maps = g.maps ∧
    (SentinelWithStack g (.base sid) st).2 = .base g.errs.length := by
  obtain ⟨hh, hr⟩ := sentinelWithStack_unfold g sid st c hg
  rw [hh]
  refine ⟨?_, ?_, ?_, ?_, rfl, hr⟩
  · simp only [Heap.cell]
    rw [getD_append_of_length_eq _ _ _ _ (by simp)]
  · simp only [Heap.cell]
    rw [getD_append_lt _ _ _ _ (by simpa using hsid), getD_set_self _ _ _ _ hsid]
  · intro j hj1 hj2
    simp only [Heap.cell]
    rcases Nat.lt_or_ge j g.errs.length with hlt | hge
    · rw [getD_append_lt _ _ _ _ (by simpa using hlt), getD_set_ne _ _ _ _ _ (Ne.symm hj1)]
    · have hgt : g.errs.length < j := lt_of_le_of_ne hge (Ne.symm hj2)
      rw [getD_of_length_le _ _ _ (by simp; omega), getD_of_length_le _ _ _ (by omega)]
  · simp

/-- C5: two `SentinelWithStack` calls on the same sentinel yield two new
error values whose `Type()` and message equal the sentinel's, whose
stack traces are the respective freshly captured (non-empty, distinct)
stacks, and `Is(result, sentinel)` holds for each. -/
theorem sentinelWithStack_spec (h : Heap) (sid : Nat) (st1 st2 : StackTrace)
    (hsid : sid < h.errs.length)
    (hne1 : st1 ≠ []) (hne2 : st2 ≠ []) (hdiff : st1 ≠ st2) :
    (SentinelWithStack h (.base sid) st1).2 = .base h.errs.length ∧
    (SentinelWithStack (SentinelWithStack h (.base sid) st1).1 (.base sid) st2).2 =
      .base (h.errs.length + 1) ∧
    (TypeOf (SentinelWithStack (SentinelWithStack h (.base sid) st1).1 (.base sid) st2).1
        h.errs.length = (h.cell sid).Type ∧
      TypeOf (SentinelWithStack (SentinelWithStack h (.base sid) st1).1 (.base sid) st2).1
        (h.errs.length + 1) = (h.cell sid).Type) ∧
    (((SentinelWithStack (SentinelWithStack h (.base sid) st1).1 (.base sid) st2).1.cell
        h.errs.length).msg = (h.cell sid).msg ∧
      ((SentinelWithStack (SentinelWithStack h (.base sid) st1).1 (.base sid) st2).1.cell
        (h.errs.length + 1)).msg = (h.cell sid).msg) ∧
    (((SentinelWithStack (SentinelWithStack h (.base sid) st1).1 (.base sid) st2).1.cell
        h.errs.length).stacktrace = st1 ∧
      ((SentinelWithStack (SentinelWithStack h (.base sid) st1).1 (.base sid) st2).1.cell
        (h.errs.length + 1)).stacktrace = st2 ∧
      st1 ≠ [] ∧ st2 ≠ [] ∧ st1 ≠ st2) ∧
    Is (SentinelWithStack (SentinelWithStack h (.base sid) st1).1 (.base sid) st2).1 2
      (.base h.errs.length) (.base sid) = true ∧
    Is (SentinelWithStack (SentinelWithStack h (.base sid) st1).1 (.base sid) st2).1 2
      (.base (h.errs.length + 1)) (.base sid) = true := by
  obtain ⟨hA1, hB1, hF1, hL1, _, hR1⟩ :=
    sentinelWithStack_cells h sid st1 (h.cell sid) rfl hsid
  have hsid2 : sid < (SentinelWithStack h (.base sid) st1).1.errs.length := by
    rw [hL1]; omega
  obtain ⟨hA2, hB2, hF2, hL2, _, hR2⟩ :=
    sentinelWithStack_cells (SentinelWithStack h (.base sid) st1).1 sid st2 _ hB1 hsid2
  rw [hL1] at hA2 hR2
  dsimp only at hA2
  have hcell1 : (SentinelWithStack (SentinelWithStack h (.base sid) st1).1
      (.base sid) st2).1.cell h.errs.length =
      ⟨some (.base sid), (h.cell sid).msg, (h.cell sid).typeStr, st1,
        (h.cell sid).metadata⟩ := by
    rw [hF2 h.errs.length (by omega) (by rw [hL1]; omega), hA1]
  refine ⟨hR1, hR2, ⟨?_, ?_⟩, ⟨?_, ?_⟩, ⟨?_, ?_, hne1, hne2, hdiff⟩, ?_, ?_⟩
  · rw [TypeOf, hcell1]
    simp only [BaseError.Type]
  · rw [TypeOf, hA2]
    simp only [BaseError.Type]
  · rw [hcell1]
  · rw [hA2]
  · rw [hcell1]
  · rw [hA2]
  · have hne : GoError.base h.errs.length ≠ GoError.base sid := by
      intro he
      cases he
      omega
    simp [Is, Unwrap, hcell1, hne]
  · have hne : GoError.base (h.errs.length + 1) ≠ GoError.base sid := by
      intro he
      cases he
      omega
    simp [Is, Unwrap, hA2, hne]

theorem sentinelWithStack_spec_witness :
    (0 < (NewSentinel Heap.empty "T" "m").1.errs.length ∧
      ([⟨"a.b"⟩] : StackTrace) ≠ [] ∧ ([⟨"c.d"⟩] : StackTrace) ≠ [] ∧
      ([⟨"a.b"⟩] : StackTrace) ≠ [⟨"c.d"⟩]) ∧
    Is (SentinelWithStack
        (SentinelWithStack (NewSentinel Heap.empty "T" "m").1 (.base 0) [⟨"a.b"⟩]).1
        (.base 0) [⟨"c.d"⟩]).1 2
      (.base ((NewSentinel Heap.empty "T" "m").1.errs.length + 1)) (.base 0) = true :=
  ⟨⟨by decide, by decide, by decide, by decide⟩,
    (sentinelWithStack_spec (NewSentinel Heap.empty "T" "m").1 0 [⟨"a.b"⟩] [⟨"c.d"⟩]
      (by decide) (by decide) (by decide) (by decide)).2.2.2.2.2.2⟩

/-- Unfolding `Wrap` over a `*baseError` argument: the new cell carries
the wrapped error as cause and shares the wrapped cell's `typeStr` and
metadata reference; the map store is untouched. -/
lemma wrap_unfold (h : Heap) (eid : Nat) (m : String) (st : StackTrace) :
    (Wrap h (.base eid) m st).1 =
      ⟨h.errs ++ [⟨some (.base eid), m, (h.cell eid).typeStr, st, (h.cell eid).metadata⟩],
        h.maps⟩ ∧
    (Wrap h (.base eid) m st).2 = .base h.errs.length := ⟨rfl, rfl⟩

/-- Unfolding `W` over a `*baseError` argument. -/
lemma w_unfold (h : Heap) (eid : Nat) (st : StackTrace) :
    (W h (.base eid) st).1 =
      ⟨h.errs ++ [⟨some (.base eid), "", (h.cell eid).typeStr, st, (h.cell eid).metadata⟩],
        h.maps⟩ ∧
    (W h (.base eid) st).2 = .base h.errs.length := ⟨rfl, rfl⟩

lemma cell_mk (E : List BaseError) (M : List Metadata) (i : Nat) :
    (⟨E, M⟩ : Heap).cell i = E.getD i default := rfl

lemma mapAt_mk (E : List BaseError) (M : List Metadata) (i : Nat) :
    (⟨E, M⟩ : Heap).mapAt i = M.getD i [] := rfl

lemma wrap_cell_new (h : Heap) (eid : Nat) (m : String) (st : StackTrace) :
    (Wrap h (.base eid) m st).1.cell h.errs.length =
      ⟨some (.base eid), m, (h.cell eid).typeStr, st, (h.cell eid).metadata⟩ := by
  rw [(wrap_unfold h eid m st).1, cell_mk, getD_append_length]

lemma w_cell_new (h : Heap) (eid : Nat) (st : StackTrace) :
    (W h (.base eid) st).1.cell h.errs.length =
      ⟨some (.base eid), "", (h.cell eid).typeStr, st, (h.cell eid).metadata⟩ := by
  rw [(w_unfold h eid st).1, cell_mk, getD_append_length]

lemma getMetadataMap_eq (h : Heap) (id emid : Nat) (hm : (h.cell id).metadata = some emid) :
    GetMetadataMap h (.base id) = some (h.mapAt emid) := by
  simp [GetMetadataMap, GetMetadata, findBase, hm]

/-- `WithMetadata` applied to the cell a `Wrap` just produced (whose
metadata field is the wrapped cell's map reference `emid`): the map at
`emid` is merged in place, everything else untouched, receiver
returned. -/
lemma withMetadata_wrap (h : Heap) (eid emid mid2 : Nat) (m : String) (st : StackTrace)
    (hmeta : (h.cell eid).metadata = some emid) :
    (WithMetadata (Wrap h (.base eid) m st).1 h.errs.length mid2).1 =
      ⟨h.errs ++ [⟨some (.base eid), m, (h.cell eid).typeStr, st, some emid⟩],
        h.maps.set emid ((h.mapAt emid).mergeInto (h.mapAt mid2))⟩ ∧
    (WithMetadata (Wrap h (.base eid) m st).1 h.errs.length mid2).2 = h.errs.length := by
  have hcn := wrap_cell_new h eid m st
  have hh1 := (wrap_unfold h eid m st).1
  constructor
  · simp only [WithMetadata]
    rw [hcn]
    dsimp only
    rw [hmeta]
    dsimp only
    rw [hh1, hmeta]
    exact rfl
  · simp only [WithMetadata]
    rw [hcn]
    dsimp only
    rw [hmeta]

/-- C3: `Wrap` exposes the wrapped error's metadata map itself (hence
every entry of `M1`), and a subsequent `WithMetadata M2` on the wrapper
returns the same error value and shallow-merges: keys bound in `M2` take
`M2`'s value (nested sub-maps replaced wholesale), all other keys keep
`M1`'s value. -/
theorem wrap_metadata_shallow_merge (h : Heap) (eid emid mid2 : Nat) (m : String)
    (st : StackTrace)
    (hmeta : (h.cell eid).metadata = some emid)
    (hemid : emid < h.maps.length)
    (hnd : ((h.mapAt mid2).map Prod.fst).Nodup) :
    GetMetadataMap (Wrap h (.base eid) m st).1 (Wrap h (.base eid) m st).2 =
      some (h.mapAt emid) ∧
    (WithMetadata (Wrap h (.base eid) m st).1 h.errs.length mid2).2 = h.errs.length ∧
    GetMetadataMap (WithMetadata (Wrap h (.base eid) m st).1 h.errs.length mid2).1
        (.base h.errs.length) =
      some ((h.mapAt emid).mergeInto (h.mapAt mid2)) ∧
    (∀ k v, (h.mapAt mid2).lookupKey k = some v →
      ((h.mapAt emid).mergeInto (h.mapAt mid2)).lookupKey k = some v) ∧
    (∀ k, (h.mapAt mid2).lookupKey k = none →
      ((h.mapAt emid).mergeInto (h.mapAt mid2)).lookupKey k =
        (h.mapAt emid).lookupKey k) := by
  have hcn := wrap_cell_new h eid m st
  obtain ⟨hh1, hw⟩ := wrap_unfold h eid m st
  obtain ⟨hh2, hr2⟩ := withMetadata_wrap h eid emid mid2 m st hmeta
  refine ⟨?_, hr2, ?_, ?_, ?_⟩
  · rw [hw, getMetadataMap_eq _ _ emid (by rw [hcn]; exact hmeta), hh1]
    exact rfl
  · have hcnew : (WithMetadata (Wrap h (.base eid) m st).1 h.errs.length mid2).1.cell
        h.errs.length =
        ⟨some (.base eid), m, (h.cell eid).typeStr, st, some emid⟩ := by
      rw [hh2, cell_mk, getD_append_length]
    rw [getMetadataMap_eq _ _ emid (by rw [hcnew]), hh2, mapAt_mk,
      getD_set_self _ _ _ _ hemid]
  · intro k v hk
    rw [lookupKey_mergeInto _ _ hnd k, hk]
  · intro k hk
    rw [lookupKey_mergeInto _ _ hnd k, hk]

theorem wrap_metadata_shallow_merge_witness :
    (((⟨[⟨none, "m", "", [], some 0⟩],
        [[("a", MetaVal.str "1"), ("nested", MetaVal.map [("x", "y")])],
          [("nested", MetaVal.map [("z", "w")])]]⟩ : Heap).cell 0).metadata = some 0 ∧
      0 < (⟨[⟨none, "m", "", [], some 0⟩],
        [[("a", MetaVal.str "1"), ("nested", MetaVal.map [("x", "y")])],
          [("nested", MetaVal.map [("z", "w")])]]⟩ : Heap).maps.length ∧
      (((⟨[⟨none, "m", "", [], some 0⟩],
        [[("a", MetaVal.str "1"), ("nested", MetaVal.map [("x", "y")])],
          [("nested", MetaVal.map [("z", "w")])]]⟩ : Heap).mapAt 1).map Prod.fst).Nodup) ∧
    GetMetadataMap (WithMetadata (Wrap (⟨[⟨none, "m", "", [], some 0⟩],
        [[("a", MetaVal.str "1"), ("nested", MetaVal.map [("x", "y")])],
          [("nested", MetaVal.map [("z", "w")])]]⟩ : Heap) (.base 0) "w" []).1
        (⟨[⟨none, "m", "", [], some 0⟩],
        [[("a", MetaVal.str "1"), ("nested", MetaVal.map [("x", "y")])],
          [("nested", MetaVal.map [("z", "w")])]]⟩ : Heap).errs.length 1).1
      (.base (⟨[⟨none, "m", "", [], some 0⟩],
        [[("a", MetaVal.str "1"), ("nested", MetaVal.map [("x", "y")])],
          [("nested", MetaVal.map [("z", "w")])]]⟩ : Heap).errs.length) =
      some (((⟨[⟨none, "m", "", [], some 0⟩],
        [[("a", MetaVal.str "1"), ("nested", MetaVal.map [("x", "y")])],
          [("nested", MetaVal.map [("z", "w")])]]⟩ : Heap).mapAt 0).mergeInto
        ((⟨[⟨none, "m", "", [], some 0⟩],
        [[("a", MetaVal.str "1"), ("nested", MetaVal.map [("x", "y")])],
          [("nested", MetaVal.map [("z", "w")])]]⟩ : Heap).mapAt 1)) :=
  ⟨⟨by decide, by decide, by decide⟩,
    (wrap_metadata_shallow_merge (⟨[⟨none, "m", "", [], some 0⟩],
        [[("a", MetaVal.str "1"), ("nested", MetaVal.map [("x", "y")])],
          [("nested", MetaVal.map [("z", "w")])]]⟩ : Heap) 0 0 1 "w" []
      (by decide) (by decide) (by decide)).2.2.1⟩

/-- C10: `Wrap` and `W` install the wrapped cell's metadata map itself
into the wrapper (same reference, no copy); consequently `WithMetadata`
on the wrapper rewrites the map seen through `GetMetadata` on the
wrapped error, and wrapper and wrapped expose the identical map
afterwards. -/
theorem wrap_shares_metadata_reference (h : Heap) (eid emid mid2 : Nat) (m : String)
    (st : StackTrace)
    (heid : eid < h.errs.length)
    (hmeta : (h.cell eid).metadata = some emid)
    (hemid : emid < h.maps.length) :
    ((Wrap h (.base eid) m st).1.cell h.errs.length).metadata = (h.cell eid).metadata ∧
    ((W h (.base eid) st).1.cell h.errs.length).metadata = (h.cell eid).metadata ∧
    GetMetadataMap (WithMetadata (Wrap h (.base eid) m st).1 h.errs.length mid2).1
        (.base eid) =
      some ((h.mapAt emid).mergeInto (h.mapAt mid2)) ∧
    GetMetadataMap (WithMetadata (Wrap h (.base eid) m st).1 h.errs.length mid2).1
        (.base eid) =
      GetMetadataMap (WithMetadata (Wrap h (.base eid) m st).1 h.errs.length mid2).1
        (.base h.errs.length) := by
  obtain ⟨hh2, _⟩ := withMetadata_wrap h eid emid mid2 m st hmeta
  have hcold : (WithMetadata (Wrap h (.base eid) m st).1 h.errs.length mid2).1.cell eid =
      h.cell eid := by
    rw [hh2, cell_mk, getD_append_lt _ _ _ _ heid]
    exact rfl
  have hcnew : (WithMetadata (Wrap h (.base eid) m st).1 h.errs.length mid2).1.cell
      h.errs.length =
      ⟨some (.base eid), m, (h.cell eid).typeStr, st, some emid⟩ := by
    rw [hh2, cell_mk, getD_append_length]
  have hmapnew : (WithMetadata (Wrap h (.base eid) m st).1 h.errs.length mid2).1.mapAt
      emid = (h.mapAt emid).mergeInto (h.mapAt mid2) := by
    rw [hh2, mapAt_mk, getD_set_self _ _ _ _ hemid]
  refine ⟨?_, ?_, ?_, ?_⟩
  · rw [wrap_cell_new]
  · rw [w_cell_new]
  · rw [getMetadataMap_eq _ _ emid (by rw [hcold]; exact hmeta), hmapnew]
  · rw [getMetadataMap_eq _ _ emid (by rw [hcold]; exact hmeta),
      getMetadataMap_eq _ _ emid (by rw [hcnew])]

theorem wrap_shares_metadata_reference_witness :
    (0 < (⟨[⟨none, "m", "", [], some 0⟩],
        [[("a", MetaVal.str "1")], [("b", MetaVal.str "2")]]⟩ : Heap).errs.length ∧
      ((⟨[⟨none, "m", "", [], some 0⟩],
        [[("a", MetaVal.str "1")], [("b", MetaVal.str "2")]]⟩ : Heap).cell 0).metadata =
        some 0 ∧
      0 < (⟨[⟨none, "m", "", [], some 0⟩],
        [[("a", MetaVal.str "1")], [("b", MetaVal.str "2")]]⟩ : Heap).maps.length) ∧
    GetMetadataMap (WithMetadata (Wrap (⟨[⟨none, "m", "", [], some 0⟩],
        [[("a", MetaVal.str "1")], [("b", MetaVal.str "2")]]⟩ : Heap) (.base 0) "w" []).1
        (⟨[⟨none, "m", "", [], some 0⟩],
          [[("a", MetaVal.str "1")], [("b", MetaVal.str "2")]]⟩ : Heap).errs.length 1).1
      (.base 0) =
      some (((⟨[⟨none, "m", "", [], some 0⟩],
          [[("a", MetaVal.str "1")], [("b", MetaVal.str "2")]]⟩ : Heap).mapAt 0).mergeInto
        ((⟨[⟨none, "m", "", [], some 0⟩],
          [[("a", MetaVal.str "1")], [("b", MetaVal.str "2")]]⟩ : Heap).mapAt 1)) :=
  ⟨⟨by decide, by decide, by decide⟩,
    (wrap_shares_metadata_reference (⟨[⟨none, "m", "", [], some 0⟩],
        [[("a", MetaVal.str "1")], [("b", MetaVal.str "2")]]⟩ : Heap) 0 0 1 "w" []
      (by decide) (by decide) (by decide)).2.2.1⟩

/-- C4 counterexample: `meta = *metaPtr` copies a Go map value, i.e. a
reference, so `WrapWithType` shares the wrapped error's metadata map
rather than copying it. On this concrete heap the wrapper and the
wrapped error hold the same map reference, and a `WithMetadata` on the
wrapper changes what `GetMetadata` on the wrapped error returns. -/
theorem wrapWithType_no_copy_counterexample :
    ((WrapWithType (⟨[⟨none, "m", "", [], some 0⟩],
        [[("a", MetaVal.str "1")], [("b", MetaVal.str "2")]]⟩ : Heap)
        (.base 0) "w" "T" []).1.cell 1).metadata =
      ((WrapWithType (⟨[⟨none, "m", "", [], some 0⟩],
        [[("a", MetaVal.str "1")], [("b", MetaVal.str "2")]]⟩ : Heap)
        (.base 0) "w" "T" []).1.cell 0).metadata ∧
    GetMetadataMap (⟨[⟨none, "m", "", [], some 0⟩],
        [[("a", MetaVal.str "1")], [("b", MetaVal.str "2")]]⟩ : Heap) (.base 0) =
      some [("a", MetaVal.str "1")] ∧
    GetMetadataMap (WithMetadata (WrapWithType (⟨[⟨none, "m", "", [], some 0⟩],
        [[("a", MetaVal.str "1")], [("b", MetaVal.str "2")]]⟩ : Heap)
        (.base 0) "w" "T" []).1 1 1).1 (.base 0) =
      some [("a", MetaVal.str "1"), ("b", MetaVal.str "2")] := by
  exact ⟨by decide, by decide, by decide⟩

lemma wrapWithType_unfold (h : Heap) (eid : Nat) (m T : String) (st : StackTrace) :
    (WrapWithType h (.base eid) m T st).1 =
      ⟨h.errs ++ [⟨some (.base eid), m, T, st, (h.cell eid).metadata⟩], h.maps⟩ ∧
    (WrapWithType h (.base eid) m T st).2 = .base h.errs.length := ⟨rfl, rfl⟩

/-- C4 amended: `WrapWithType` always sets the given type tag, and when
the wrapped chain holds a `*baseError` it initializes the wrapper's
metadata field with the wrapped error's map *reference* (the same map,
not a copy): mutating the wrapper's metadata does alter the wrapped
error's metadata. -/
theorem wrapWithType_sets_type_shares_meta (h : Heap) (eid emid mid2 : Nat)
    (m T : String) (st : StackTrace)
    (heid : eid < h.errs.length)
    (hmeta : (h.cell eid).metadata = some emid)
    (hemid : emid < h.maps.length) :
    (WrapWithType h (.base eid) m T st).2 = .base h.errs.length ∧
    ((WrapWithType h (.base eid) m T st).1.cell h.errs.length).typeStr = T ∧
    ((WrapWithType h (.base eid) m T st).1.cell h.errs.length).metadata =
      (h.cell eid).metadata ∧
    GetMetadataMap (WithMetadata (WrapWithType h (.base eid) m T st).1
        h.errs.length mid2).1 (.base eid) =
      some ((h.mapAt emid).mergeInto (h.mapAt mid2)) := by
  obtain ⟨hh1, hr1⟩ := wrapWithType_unfold h eid m T st
  have hcn : (WrapWithType h (.base eid) m T st).1.cell h.errs.length =
      ⟨some (.base eid), m, T, st, (h.cell eid).metadata⟩ := by
    rw [hh1, cell_mk, getD_append_length]
  have hh2 : (WithMetadata (WrapWithType h (.base eid) m T st).1 h.errs.length mid2).1 =
      ⟨h.errs ++ [⟨some (.base eid), m, T, st, some emid⟩],
        h.maps.set emid ((h.mapAt emid).mergeInto (h.mapAt mid2))⟩ := by
    simp only [WithMetadata]
    rw [hcn]
    dsimp only
    rw [hmeta]
    dsimp only
    rw [hh1, hmeta]
    exact rfl
  have hcold : (WithMetadata (WrapWithType h (.base eid) m T st).1
      h.errs.length mid2).1.cell eid = h.cell eid := by
    rw [hh2, cell_mk, getD_append_lt _ _ _ _ heid]
    exact rfl
  refine ⟨hr1, by rw [hcn], by rw [hcn], ?_⟩
  rw [getMetadataMap_eq _ _ emid (by rw [hcold]; exact hmeta), hh2, mapAt_mk,
    getD_set_self _ _ _ _ hemid]

theorem wrapWithType_sets_type_shares_meta_witness :
    (0 < (⟨[⟨none, "m", "", [], some 0⟩],
        [[("a", MetaVal.str "1")], [("b", MetaVal.str "2")]]⟩ : Heap).errs.length ∧
      ((⟨[⟨none, "m", "", [], some 0⟩],
        [[("a", MetaVal.str "1")], [("b", MetaVal.str "2")]]⟩ : Heap).cell 0).metadata =
        some 0 ∧
      0 < (⟨[⟨none, "m", "", [], some 0⟩],
        [[("a", MetaVal.str "1")], [("b", MetaVal.str "2")]]⟩ : Heap).maps.length) ∧
    ((WrapWithType (⟨[⟨none, "m", "", [], some 0⟩],
        [[("a", MetaVal.str "1")], [("b", MetaVal.str "2")]]⟩ : Heap)
        (.base 0) "w" "T" []).1.cell (⟨[⟨none, "m", "", [], some 0⟩],
        [[("a", MetaVal.str "1")], [("b", MetaVal.str "2")]]⟩ : Heap).errs.length).typeStr =
      "T" :=
  ⟨⟨by decide, by decide, by decide⟩,
    (wrapWithType_sets_type_shares_meta (⟨[⟨none, "m", "", [], some 0⟩],
        [[("a", MetaVal.str "1")], [("b", MetaVal.str "2")]]⟩ : Heap) 0 0 1 "w" "T" []
      (by decide) (by decide) (by decide)).2.1⟩

/-- C6 counterexample: `SentinelWithStack` assigns nil to the found
cell's `stacktrace` field, so an argument whose stack trace is non-empty
is mutated in place: here the cell's stack trace is cleared from one
frame to none. -/
theorem sentinelWithStack_mutation_counterexample :
    ((⟨[⟨none, "m", "T", [⟨"p.f"⟩], some 0⟩], [[]]⟩ : Heap).cell 0).stacktrace =
      [⟨"p.f"⟩] ∧
    ((SentinelWithStack (⟨[⟨none, "m", "T", [⟨"p.f"⟩], some 0⟩], [[]]⟩ : Heap)
        (.base 0) [⟨"q.g"⟩]).1.cell 0).stacktrace = [] ∧
    ([⟨"p.f"⟩] : StackTrace) ≠ [] := by
  exact ⟨by decide, by decide, by decide⟩

/-- C6 amended: `SentinelWithStack` writes nil into the found cell's
`stacktrace` field (mutating the argument when that field was
non-empty), leaves the cell's other fields and every other cell and the
map store unchanged, and returns a new error value carrying the fresh
stack; for a sentinel fresh from `NewSentinel` — whose stacktrace is
already nil — the argument cell's value is unchanged. -/
theorem sentinelWithStack_frame (h : Heap) (sid : Nat) (st : StackTrace)
    (hsid : sid < h.errs.length) :
    (SentinelWithStack h (.base sid) st).1.cell sid =
      ⟨(h.cell sid).cause, (h.cell sid).msg, (h.cell sid).typeStr, [],
        (h.cell sid).metadata⟩ ∧
    ((h.cell sid).stacktrace = [] →
      (SentinelWithStack h (.base sid) st).1.cell sid = h.cell sid) ∧
    (∀ j, j ≠ sid → j ≠ h.errs.length →
      (SentinelWithStack h (.base sid) st).1.cell j = h.cell j) ∧
    (SentinelWithStack h (.base sid) st).1.maps = h.maps ∧
    ((SentinelWithStack h (.base sid) st).1.cell h.errs.length).stacktrace = st ∧
    (SentinelWithStack h (.base sid) st).2 = .base h.errs.length := by
  obtain ⟨hA, hB, hF, _, hM, hR⟩ := sentinelWithStack_cells h sid st (h.cell sid) rfl hsid
  refine ⟨hB, ?_, hF, hM, ?_, hR⟩
  · intro he
    rw [hB, ← he]
  · rw [hA]

theorem sentinelWithStack_frame_witness :
    (0 < (NewSentinel Heap.empty "T" "m").1.errs.length ∧
      ((NewSentinel Heap.empty "T" "m").1.cell 0).stacktrace = []) ∧
    (SentinelWithStack (NewSentinel Heap.empty "T" "m").1 (.base 0) [⟨"a.b"⟩]).1.cell 0 =
      (NewSentinel Heap.empty "T" "m").1.cell 0 :=
  ⟨⟨by decide, by decide⟩,
    (sentinelWithStack_frame (NewSentinel Heap.empty "T" "m").1 0 [⟨"a.b"⟩]
      (by decide)).2.1 (by decide)⟩

/-! ## Frame decomposition: index lemmas and spec readings -/

lemma takeWhile_ne_eq_self (c : Char) (l : List Char) (hc : c ∉ l) :
    l.takeWhile (· != c) = l := by
  induction l with
  | nil => rfl
  | cons x t ih =>
    simp only [List.mem_cons] at hc
    push_neg at hc
    have hxc : ¬x = c := fun he => hc.1 he.symm
    simp [List.takeWhile_cons, hxc, ih hc.2]

lemma takeWhile_ne_append_of_mem (c : Char) (l r : List Char) (hc : c ∈ l) :
    (l ++ r).takeWhile (· != c) = l.takeWhile (· != c) := by
  induction l with
  | nil => exact absurd hc (by simp)
  | cons x t ih =>
    by_cases hx : x = c
    · subst hx
      simp [List.takeWhile_cons]
    · have hct : c ∈ t := by
        rcases List.mem_cons.1 hc with h | h
        · exact absurd h.symm hx
        · exact h
      simp [List.takeWhile_cons, hx, ih hct]

lemma takeWhile_ne_append_of_not_mem (c : Char) (l r : List Char) (hc : c ∉ l) :
    (l ++ r).takeWhile (· != c) = l ++ r.takeWhile (· != c) := by
  induction l with
  | nil => rfl
  | cons x t ih =>
    simp only [List.mem_cons] at hc
    push_neg at hc
    have hxc : ¬x = c := fun he => hc.1 he.symm
    simp [List.takeWhile_cons, hxc, ih hc.2]

lemma firstIdx_none_iff (c : Char) (l : List Char) : firstIdx c l = none ↔ c ∉ l := by
  induction l with
  | nil => simp [firstIdx]
  | cons x t ih =>
    by_cases hx : x = c
    · subst hx
      simp [firstIdx]
    · have hcx : ¬c = x := fun he => hx he.symm
      simp [firstIdx, hx, ih, hcx]

lemma lastIdx_none_iff (c : Char) (l : List Char) : lastIdx c l = none ↔ c ∉ l := by
  induction l with
  | nil => simp [lastIdx]
  | cons x t ih =>
    simp only [lastIdx, List.mem_cons]
    cases h : lastIdx c t with
    | some j =>
      have hmem : c ∈ t := by
        by_contra hm
        rw [ih.2 hm] at h
        exact Option.noConfusion h
      constructor
      · intro hh
        exact absurd hh (by simp)
      · intro hh
        exact absurd (Or.inr hmem) hh
    | none =>
      have hnt : c ∉ t := ih.1 h
      by_cases hx : x = c
      · subst hx
        simp [hnt]
      · have hcx : ¬c = x := fun he => hx he.symm
        simp [hx, hcx, hnt]

lemma firstIdx_take (c : Char) (l : List Char) (i : Nat) (h : firstIdx c l = some i) :
    l.take i = l.takeWhile (· != c) := by
  induction l generalizing i with
  | nil => exact absurd h (by simp [firstIdx])
  | cons x t ih =>
    by_cases hx : x = c
    · subst hx
      simp only [firstIdx, if_pos rfl] at h
      have hi : i = 0 := by
        cases h
        rfl
      subst hi
      simp [List.takeWhile_cons]
    · simp only [firstIdx, if_neg hx] at h
      rcases Option.map_eq_some'.1 h with ⟨j, hj, hij⟩
      subst hij
      simp [List.take_succ_cons, List.takeWhile_cons, hx, ih j hj]

lemma lastIdx_drop (c : Char) (l : List Char) (i : Nat) (h : lastIdx c l = some i) :
    l.drop (i + 1) = (l.reverse.takeWhile (· != c)).reverse := by
  induction l generalizing i with
  | nil => exact absurd h (by simp [lastIdx])
  | cons x t ih =>
    simp only [lastIdx] at h
    cases ht : lastIdx c t with
    | some j =>
      rw [ht] at h
      have hij : i = j + 1 := by
        cases h
        rfl
      subst hij
      have hmem : c ∈ t := by
        by_contra hm
        rw [(lastIdx_none_iff c t).2 hm] at ht
        exact Option.noConfusion ht
      have hmemr : c ∈ t.reverse := by simpa using hmem
      simp only [List.drop_succ_cons, List.reverse_cons]
      rw [takeWhile_ne_append_of_mem c t.reverse [x] hmemr]
      exact ih j ht
    | none =>
      rw [ht] at h
      by_cases hx : x = c
      · subst hx
        rw [if_pos rfl] at h
        have hi : i = 0 := by
          cases h
          rfl
        subst hi
        have hm : x ∉ t := (lastIdx_none_iff x t).1 ht
        have hmr : x ∉ t.reverse := by simpa using hm
        simp only [List.drop_succ_cons, List.drop_zero, List.reverse_cons]
        rw [takeWhile_ne_append_of_not_mem x t.reverse [x] hmr]
        simp [List.takeWhile_cons]
      · rw [if_neg hx] at h
        exact absurd h (by simp)

/-- The path-free symbol: everything after the last `/`, the whole
symbol when it has no slash. -/
def pathFree (cs : List Char) : List Char :=
  (cs.reverse.takeWhile (· != '/')).reverse

/-- The spec's corrected reading of `Frame.Package`: empty for the
reserved compiler prefixes, else the text of the path-free symbol
before its *first* dot, empty when it has no dot. -/
def packageSpec (sym : String) : String :=
  if hasPrefixL "go.".data sym.data || hasPrefixL "type.".data sym.data then ""
  else if '.' ∈ pathFree sym.data then ⟨(pathFree sym.data).takeWhile (· != '.')⟩
  else ""

/-- The spec's reading of `Frame.FuncName`: the text after the last
dot, the whole symbol when it has no dot. -/
def funcNameSpec (sym : String) : String :=
  if '.' ∈ sym.data then ⟨(sym.data.reverse.takeWhile (· != '.')).reverse⟩ else sym

/-- Claim C9's literal reading of `Frame.Package`: the text of the
path-free symbol before its *last* separator dot. -/
def packageClaimLastDot (sym : String) : String :=
  if hasPrefixL "go.".data sym.data || hasPrefixL "type.".data sym.data then ""
  else
    match lastIdx '.' (pathFree sym.data) with
    | some i => ⟨(pathFree sym.data).take i⟩
    | none => ""

lemma pathFree_eq (cs : List Char) :
    (match lastIdx '/' cs with
      | some p => cs.drop (p + 1)
      | none => cs) = pathFree cs := by
  cases hsl : lastIdx '/' cs with
  | none =>
    have hnm : '/' ∉ cs := (lastIdx_none_iff _ _).1 hsl
    have hrev : cs.reverse.takeWhile (· != '/') = cs.reverse :=
      takeWhile_ne_eq_self _ _ (by simpa using hnm)
    simp [pathFree, hrev]
  | some p => simpa [pathFree] using lastIdx_drop '/' cs p hsl

/-- C9 counterexample: on `pkg/sub.Handler.func1` the code returns the
text before the *first* dot of the path-free symbol (`sub`), not the
text before its last dot (`sub.Handler`), so the claim's general rule
fails at this input (while its concrete example holds). -/
theorem frame_package_lastdot_counterexample :
    Frame.Package ⟨"pkg/sub.Handler.func1"⟩ = "sub" ∧
    packageClaimLastDot "pkg/sub.Handler.func1" = "sub.Handler" ∧
    Frame.Package ⟨"pkg/sub.Handler.func1"⟩ ≠
      packageClaimLastDot "pkg/sub.Handler.func1" := by
  exact ⟨by decide, by decide, by decide⟩

/-- C9 amended: `Package()` returns the text of the path-free symbol
before its *first* dot (empty if none, and empty for the reserved
prefixes `go.` / `type.`); `FuncName()` returns the text after the last
dot (the whole symbol if it has no dot). In particular
`pkg/sub.Handler.func1` yields package `sub` and function `func1`, and
a `type.`-prefixed symbol yields an empty package. -/
theorem frame_decomposition_spec :
    (∀ sym : String, Frame.Package ⟨sym⟩ = packageSpec sym) ∧
    (∀ sym : String, Frame.FuncName ⟨sym⟩ = funcNameSpec sym) ∧
    Frame.Package ⟨"pkg/sub.Handler.func1"⟩ = "sub" ∧
    Frame.FuncName ⟨"pkg/sub.Handler.func1"⟩ = "func1" ∧
    Frame.Package ⟨"type.Named.Method"⟩ = "" ∧
    Frame.Package ⟨"go.itab.x"⟩ = "" := by
  refine ⟨?_, ?_, by decide, by decide, by decide, by decide⟩
  · intro sym
    simp only [Frame.Package, packageSpec]
    by_cases hres : (hasPrefixL "go.".data sym.data || hasPrefixL "type.".data sym.data) = true
    · simp [hres]
    · simp only [hres, if_false, Bool.false_eq_true]
      rw [pathFree_eq]
      cases hfi : firstIdx '.' (pathFree sym.data) with
      | none =>
        have : '.' ∉ pathFree sym.data := (firstIdx_none_iff _ _).1 hfi
        simp [this]
      | some i =>
        have hmem : '.' ∈ pathFree sym.data := by
          by_contra hm
          rw [(firstIdx_none_iff _ _).2 hm] at hfi
          exact Option.noConfusion hfi
        simp only [hmem, if_true]
        rw [firstIdx_take _ _ _ hfi]
  · intro sym
    simp only [Frame.FuncName, funcNameSpec]
    cases hli : lastIdx '.' sym.data with
    | none =>
      have : '.' ∉ sym.data := (lastIdx_none_iff _ _).1 hli
      simp [this]
    | some i =>
      have hmem : '.' ∈ sym.data := by
        by_contra hm
        rw [(lastIdx_none_iff _ _).2 hm] at hli
        exact Option.noConfusion hli
      simp only [hmem, if_true]
      rw [lastIdx_drop _ _ _ hli]

/-! ## Error display (C8) -/

/-- Index of the first occurrence of `pat` as a substring (Go
`strings.Index` for multi-character patterns); used to observe the
order of messages inside a rendered error chain. -/
def firstOccur (pat : List Char) : List Char → Option Nat
  | [] => if hasPrefixL pat [] then some 0 else none
  | c :: t => if hasPrefixL pat (c :: t) then some 0 else (firstOccur pat t).map (· + 1)

/-- One display layer as the code builds it: the context (type tag
alone, `pkg.fn` alone, or `tag@pkg.fn`) is wrapped in square brackets
with the message appended *after* the brackets when the message is
non-empty; the cause's display follows after ` => `. -/
def displayOf (c : BaseError) (causeStr : Option String) : String :=
  let context :=
    match c.stacktrace with
    | [] => c.typeStr
    | topStack :: _ =>
      if c.typeStr ≠ "" then c.typeStr ++ "@" ++ topStack.Package ++ "." ++ topStack.FuncName
      else topStack.Package ++ "." ++ topStack.FuncName
  let withMsg := if c.msg ≠ "" then "[" ++ context ++ "] " ++ c.msg else context
  match causeStr with
  | some s => withMsg ++ " => " ++ s
  | none => withMsg

/-- One display layer as claim C8 words it: the context is built the
same way, but the non-empty *message* is the part appended in brackets
(`context [message]`). -/
def claimDisplayOf (c : BaseError) (causeStr : Option String) : String :=
  let context :=
    match c.stacktrace with
    | [] => c.typeStr
    | topStack :: _ =>
      if c.typeStr ≠ "" then c.typeStr ++ "@" ++ topStack.Package ++ "." ++ topStack.FuncName
      else topStack.Package ++ "." ++ topStack.FuncName
  let withMsg := if c.msg ≠ "" then context ++ " [" ++ c.msg ++ "]" else context
  match causeStr with
  | some s => withMsg ++ " => " ++ s
  | none => withMsg

/-- C8 counterexample: the code brackets the *context* and appends the
message after it, while the claim's template brackets the message. On a
sentinel-shaped error with type tag `T` and message `m` the code
renders `[T] m`, not `T [m]`. -/
theorem error_display_brackets_counterexample :
    errorStr (⟨[⟨none, "m", "T", [], some 0⟩], [[]]⟩ : Heap) 1 (.base 0) = "[T] m" ∧
    claimDisplayOf ((⟨[⟨none, "m", "T", [], some 0⟩], [[]]⟩ : Heap).cell 0) none =
      "T [m]" ∧
    errorStr (⟨[⟨none, "m", "T", [], some 0⟩], [[]]⟩ : Heap) 1 (.base 0) ≠
      claimDisplayOf ((⟨[⟨none, "m", "T", [], some 0⟩], [[]]⟩ : Heap).cell 0) none := by
  exact ⟨by decide, by decide, by decide⟩

/-- C8 amended: `Error()` is defined for every error value, including
one with an empty stack trace, where the type tag alone is the context;
each layer renders as `[typeTag@package.function] message` — context in
brackets from the first stack frame and the `@`-joined tag when
present, the non-empty message appended after the brackets — with the
cause's display after the ` => ` separator, so a chain shows wrapper
messages before cause messages (`save failed` before `disk full` in the
New / WrapWithType / Wrap scenario). -/
theorem error_display_spec (h : Heap) (fuel : Nat) (id : Nat) :
    (errorStr h (fuel + 1) (.base id) =
      displayOf (h.cell id) (Option.map (errorStr h fuel) (h.cell id).cause)) ∧
    errorStr (Wrap (WrapWithType (New Heap.empty "disk full" [⟨"pkg/sub.A"⟩]).1
        (New Heap.empty "disk full" [⟨"pkg/sub.A"⟩]).2 "save failed" "IOError"
        [⟨"pkg/sub.B"⟩]).1
        (WrapWithType (New Heap.empty "disk full" [⟨"pkg/sub.A"⟩]).1
          (New Heap.empty "disk full" [⟨"pkg/sub.A"⟩]).2 "save failed" "IOError"
          [⟨"pkg/sub.B"⟩]).2 "request failed" [⟨"pkg/sub.C"⟩]).1 3
      (Wrap (WrapWithType (New Heap.empty "disk full" [⟨"pkg/sub.A"⟩]).1
        (New Heap.empty "disk full" [⟨"pkg/sub.A"⟩]).2 "save failed" "IOError"
        [⟨"pkg/sub.B"⟩]).1
        (WrapWithType (New Heap.empty "disk full" [⟨"pkg/sub.A"⟩]).1
          (New Heap.empty "disk full" [⟨"pkg/sub.A"⟩]).2 "save failed" "IOError"
          [⟨"pkg/sub.B"⟩]).2 "request failed" [⟨"pkg/sub.C"⟩]).2 =
      "[IOError@sub.C] request failed => [IOError@sub.B] save failed => [sub.A] disk full" ∧
    firstOccur "save failed".data
      "[IOError@sub.C] request failed => [IOError@sub.B] save failed => [sub.A] disk full".data =
      some 50 ∧
    firstOccur "disk full".data
      "[IOError@sub.C] request failed => [IOError@sub.B] save failed => [sub.A] disk full".data =
      some 73 ∧
    50 < 73 := by
  refine ⟨?_, by decide, by decide, by decide, by decide⟩
  simp only [errorStr, displayOf]
  cases hst : (h.cell id).stacktrace <;>
    cases hc : (h.cell id).cause <;>
      by_cases ht : (h.cell id).typeStr = "" <;>
        simp [ht, Option.map]

end GoErrors
